import Mathlib

/-!
Shallow embedding of the casper-node contract-runtime block-execution pipeline
(`src/node/src/components/contract_runtime/operations.rs`).

External collaborators (the execution engine, the global-state provider, the
hashing and serialization primitives) are modelled as pure functions collected
in an `Env` structure; every collaborator invocation is recorded, in call
order, in an `EngineEvent` trace returned alongside the result, so that claims
about invocation ordering (the height gate firing before any engine call, the
sequential threading of state roots, the checksum write landing after all
transaction commits and before era-step) can be stated and settled.
-/

namespace CasperOperations

/-- Digest (a 32-byte hash in the source) modelled as a natural number. -/
abbrev Digest := Nat

/-- Validator / account public key; `system` is the distinguished
`PublicKey::System` value used as proposer in speculative execution. -/
inductive PublicKey
  | system
  | key (n : Nat)
deriving DecidableEq, Repr

/-- Global-state key; the checksum registry lives at the reserved
`Key::ChecksumRegistry` variant. -/
inductive Key
  | checksumRegistry
  | hashKey (n : Nat)
deriving DecidableEq, Repr

/-- Transform applied to one global-state key. -/
inductive Transform
  | write (v : Nat)
  | add (v : Nat)
deriving DecidableEq, Repr

/-- Effect journal (`AdditiveMap<Key, Transform>` / `ExecutionJournal`). -/
abbrev Effects := List (Key × Transform)

/-- ExecutionPreState: the starting point for a new block's execution. -/
structure ExecutionPreState where
  pre_state_root_hash : Digest
  parent_hash : Nat
  parent_seed : Nat
  next_block_height : Nat
deriving DecidableEq, Repr

/-- EraReport carried by an era-ending finalized block. -/
structure EraReport where
  equivocators : List PublicKey
  rewards : List (PublicKey × Nat)
  inactive_validators : List PublicKey
deriving DecidableEq, Repr

/-- FinalizedBlock: the already-agreed-upon block body (timestamp in millis). -/
structure FinalizedBlock where
  height : Nat
  timestamp : Nat
  proposer : PublicKey
  era_report : Option EraReport
  era_id : Nat
deriving DecidableEq, Repr

/-- Deploy (transaction): content hash, approvals hash and an opaque header. -/
structure Deploy where
  hash : Nat
  approvals_hash : Nat
  header : Nat
deriving DecidableEq, Repr

/-- DeployId: the pair of deploy hash and approvals hash
(`DeployId::destructure` yields the pair in this order). -/
abbrev DeployId := Nat × Nat

/-- Deploy.id mirrors `Deploy::id`, pairing the hash with the approvals hash. -/
def Deploy.id (d : Deploy) : DeployId := (d.hash, d.approvals_hash)

/-- DeployItem handed to the execution engine (`DeployItem::from(deploy)`). -/
structure DeployItem where
  deploy_hash : Nat
  header : Nat
  approvals_hash : Nat
deriving DecidableEq, Repr

/-- DeployItem.ofDeploy mirrors the `From<Deploy>` conversion. -/
def DeployItem.ofDeploy (d : Deploy) : DeployItem :=
  { deploy_hash := d.hash, header := d.header, approvals_hash := d.approvals_hash }

/-- ExecuteRequest submitted to the execution engine. -/
structure ExecuteRequest where
  parent_state_hash : Digest
  block_time : Nat
  deploys : List DeployItem
  protocol_version : Nat
  proposer : PublicKey
deriving DecidableEq, Repr

/-- Engine-side execution result: success or failure, both carrying an effect
journal and a cost. -/
inductive EngineExecutionResult
  | success (execution_journal : Effects) (cost : Nat)
  | failure (error : Nat) (execution_journal : Effects) (cost : Nat)
deriving DecidableEq, Repr

/-- Journal extractor: both branches carry an effect journal. -/
def EngineExecutionResult.journal : EngineExecutionResult → Effects
  | .success j _ => j
  | .failure _ j _ => j

/-- Public (casper-types) execution result, converted from the engine result. -/
inductive ExecutionResult
  | success (effect : Effects) (cost : Nat)
  | failure (effect : Effects) (cost : Nat) (error_message : Nat)
deriving DecidableEq, Repr

/-- ExecutionResult.fromEngine mirrors `ExecutionResult::from(&ee_result)`. -/
def ExecutionResult.fromEngine : EngineExecutionResult → ExecutionResult
  | .success j c => .success j c
  | .failure e j c => .failure j c e

/-- ChecksumRegistry: a small named-digest map stored in global state. -/
abbrev ChecksumRegistry := List (String × Digest)

/-- ChecksumRegistry.new mirrors `ChecksumRegistry::new`. -/
def ChecksumRegistry.new : ChecksumRegistry := []

/-- ChecksumRegistry.insert appends a named digest. -/
def ChecksumRegistry.insert (r : ChecksumRegistry) (name : String) (d : Digest) :
    ChecksumRegistry :=
  r ++ [(name, d)]

/-- Registry key for the approvals checksum. -/
def APPROVALS_CHECKSUM_NAME : String := "approvals_checksum"

/-- Registry key for the execution results checksum. -/
def EXECUTION_RESULTS_CHECKSUM_NAME : String := "execution_results_checksum"

/-- RewardItem of a step request. -/
structure RewardItem where
  validator_id : PublicKey
  value : Nat
deriving DecidableEq, Repr

/-- RewardItem.new mirrors `RewardItem::new`. -/
def RewardItem.new (v : PublicKey) (value : Nat) : RewardItem := ⟨v, value⟩

/-- EvictItem of a step request. -/
structure EvictItem where
  validator_id : PublicKey
deriving DecidableEq, Repr

/-- EvictItem.new mirrors `EvictItem::new`. -/
def EvictItem.new (v : PublicKey) : EvictItem := ⟨v⟩

/-- SlashItem of a step request (never populated by this network). -/
structure SlashItem where
  validator_id : PublicKey
deriving DecidableEq, Repr

/-- StepRequest: the privileged auction-housekeeping request. -/
structure StepRequest where
  pre_state_hash : Digest
  protocol_version : Nat
  reward_items : List RewardItem
  slash_items : List SlashItem
  evict_items : List EvictItem
  next_era_id : Nat
  era_end_timestamp_millis : Nat
deriving DecidableEq, Repr

/-- StepSuccess returned by the engine's step execution. -/
structure StepSuccess where
  post_state_hash : Digest
  execution_journal : Effects
deriving DecidableEq, Repr

/-- GetEraValidatorsRequest. -/
structure GetEraValidatorsRequest where
  state_hash : Digest
  protocol_version : Nat
deriving DecidableEq, Repr

/-- Weight table of one era: validator to weight. -/
abbrev ValidatorWeights := List (PublicKey × Nat)

/-- Upcoming validators: era id to weight table (`BTreeMap` as assoc list). -/
abbrev EraValidators := List (Nat × ValidatorWeights)

/-- Map lookup mirroring `BTreeMap::get` on the era-validators table. -/
def era_validators_get (m : EraValidators) (era : Nat) : Option ValidatorWeights :=
  (m.find? fun p => p.1 == era).map Prod.snd

/-- SpeculativeExecutionState for `execute_only` (block_time in millis). -/
structure SpeculativeExecutionState where
  state_root_hash : Digest
  block_time : Nat
  protocol_version : Nat
deriving DecidableEq, Repr

/-- One recorded collaborator invocation, in program order. -/
inductive EngineEvent
  | computeApprovalsChecksum (ids : List DeployId)
  | openScratch
  | runExecute (req : ExecuteRequest)
  | applyEffect (root : Digest) (effects : Effects)
  | computeExecutionResultsChecksum (results : List ExecutionResult)
  | commitStep (req : StepRequest)
  | writeScratchToDb (root : Digest)
  | getEraValidators (req : GetEraValidatorsRequest)
  | flushEnvironment
  | getChecksumRegistryProof (root : Digest)
deriving DecidableEq, Repr

/-- External collaborators as deterministic pure functions.  Errors carried by
the engine, serialization and hashing collaborators are opaque numbers. -/
structure Env where
  run_execute : ExecuteRequest → Except Nat (List EngineExecutionResult)
  apply_effect : Digest → Effects → Except Nat Digest
  commit_step_ee : StepRequest → Except Nat StepSuccess
  get_era_validators : GetEraValidatorsRequest → Except Nat EraValidators
  write_scratch_to_db : Digest → Except Nat Digest
  flush_environment : Except Nat Unit
  get_checksum_registry_proof : Digest → Except Nat Nat
  compute_approvals_checksum : List DeployId → Except Nat Digest
  compute_execution_results_checksum : List ExecutionResult → Except Nat Digest
  clvalue_from_registry : ChecksumRegistry → Except Nat Nat
  block_hash : Nat → Nat → Digest → FinalizedBlock → Option ValidatorWeights → Nat → Except Nat Nat

/-- Assembled block record (fields as passed to `Block::new`). -/
structure Block where
  parent_hash : Nat
  parent_seed : Nat
  state_root_hash : Digest
  body : FinalizedBlock
  next_era_validator_weights : Option ValidatorWeights
  protocol_version : Nat
  hash : Nat
deriving DecidableEq, Repr

/-- Block.new mirrors the fallible `Block::new` constructor; the hash
computation is the external, fallible part. -/
def Block.new (env : Env) (parent_hash parent_seed : Nat) (state_root_hash : Digest)
    (finalized_block : FinalizedBlock)
    (next_era_validator_weights : Option ValidatorWeights)
    (protocol_version : Nat) : Except Nat Block :=
  (env.block_hash parent_hash parent_seed state_root_hash finalized_block
      next_era_validator_weights protocol_version).map fun h =>
    { parent_hash, parent_seed, state_root_hash, body := finalized_block,
      next_era_validator_weights, protocol_version, hash := h }

/-- ApprovalsHashes produced alongside the block. -/
structure ApprovalsHashes where
  block_hash : Nat
  approvals_hashes : List Nat
  checksum_registry_proof : Nat
deriving DecidableEq, Repr

/-- Step journal plus the upcoming validator table. -/
structure StepEffectAndUpcomingEraValidators where
  step_execution_journal : Effects
  upcoming_era_validators : EraValidators
deriving DecidableEq, Repr

/-- The orchestrator's return bundle. -/
structure BlockAndExecutionResults where
  block : Block
  approvals_hashes : ApprovalsHashes
  execution_results : List (Nat × Nat × ExecutionResult)
  maybe_step_effect_and_upcoming_era_validators : Option StepEffectAndUpcomingEraValidators
deriving DecidableEq, Repr

/-- BlockExecutionError: the orchestrator's error taxonomy. -/
inductive BlockExecutionError
  | wrongBlockHeight (finalized_block : FinalizedBlock)
      (execution_pre_state : ExecutionPreState)
  | blockCreation (e : Nat)
  | engine (e : Nat)
  | step (e : Nat)
  | moreThanOneExecutionResult
deriving DecidableEq, Repr

/-- Itertools `exactly_one`: some value only when the list is a singleton. -/
def exactly_one : List α → Option α
  | [x] => some x
  | _ => none

/-- commit_transforms mirrors the source helper: one `apply_effect` engine
call, its event recorded. -/
def commit_transforms (env : Env) (state_root_hash : Digest) (effects : Effects) :
    Except Nat Digest × List EngineEvent :=
  (env.apply_effect state_root_hash effects, [.applyEffect state_root_hash effects])

set_option linter.unusedVariables false in
/-- commit_execution_results mirrors the source: require exactly one engine
result, extract the journal from either branch, commit it, pair the new root
with the public result.  The deploy hash parameter is kept from the source,
where it is used only for logging. -/
def commit_execution_results (env : Env) (state_root_hash : Digest)
    (deploy_hash : Nat) (execution_results : List EngineExecutionResult) :
    Except BlockExecutionError (Digest × ExecutionResult) × List EngineEvent :=
  match exactly_one execution_results with
  | none => (.error .moreThanOneExecutionResult, [])
  | some ee_execution_result =>
    let json_execution_result := ExecutionResult.fromEngine ee_execution_result
    let execution_effect := ee_execution_result.journal
    match commit_transforms env state_root_hash execution_effect with
    | (.error e, evs) => (.error (.engine e), evs)
    | (.ok new_state_root, evs) => (.ok (new_state_root, json_execution_result), evs)

/-- execute mirrors the source helper: a single `run_execute` engine call. -/
def execute (env : Env) (execute_request : ExecuteRequest) :
    Except Nat (List EngineExecutionResult) × List EngineEvent :=
  (env.run_execute execute_request, [.runExecute execute_request])

/-- execute_only mirrors the speculative entry point: one engine call with the
system public key as proposer and no commit; a result count other than one
yields `none` rather than an error. -/
def execute_only (env : Env) (execution_state : SpeculativeExecutionState)
    (deploy : DeployItem) :
    Except Nat (Option ExecutionResult) × List EngineEvent :=
  let _deploy_hash := deploy.deploy_hash
  let execute_request : ExecuteRequest :=
    { parent_state_hash := execution_state.state_root_hash,
      block_time := execution_state.block_time,
      deploys := [deploy],
      protocol_version := execution_state.protocol_version,
      proposer := .system }
  match execute env execute_request with
  | (results, evs) =>
    (results.map fun execution_results =>
      if execution_results.length ≠ 1 then none
      else execution_results.head?.map ExecutionResult.fromEngine,
     evs)

/-- build_step_request mirrors the request construction inside `commit_step`:
rewards passed through unchanged, evictions are inactive validators chained
with equivocators, slashing always empty. -/
def build_step_request (protocol_version : Nat) (pre_state_root_hash : Digest)
    (era_report : EraReport) (era_end_timestamp_millis : Nat)
    (next_era_id : Nat) : StepRequest :=
  let reward_items := era_report.rewards.map fun p => RewardItem.new p.1 p.2
  let evict_items :=
    (era_report.inactive_validators ++ era_report.equivocators).map EvictItem.new
  { pre_state_hash := pre_state_root_hash,
    protocol_version,
    reward_items,
    slash_items := [],
    evict_items,
    next_era_id,
    era_end_timestamp_millis }

/-- commit_step mirrors the source: build the step request and submit it to
the engine. -/
def commit_step (env : Env) (protocol_version : Nat) (pre_state_root_hash : Digest)
    (era_report : EraReport) (era_end_timestamp_millis : Nat)
    (next_era_id : Nat) : Except Nat StepSuccess × List EngineEvent :=
  let step_request := build_step_request protocol_version pre_state_root_hash
    era_report era_end_timestamp_millis next_era_id
  (env.commit_step_ee step_request, [.commitStep step_request])

/-- run_deploys embeds the per-deploy loop of `execute_finalized_block`: for
each deploy, build the request at the current root, run the engine, commit the
result's journal, append the result triple, thread the new root forward. -/
def run_deploys (env : Env) (protocol_version block_time : Nat)
    (proposer : PublicKey) :
    List Deploy → Digest →
    Except BlockExecutionError (Digest × List (Nat × Nat × ExecutionResult)) ×
      List EngineEvent
  | [], state_root_hash => (.ok (state_root_hash, []), [])
  | deploy :: rest, state_root_hash =>
    let deploy_hash := deploy.hash
    let deploy_header := deploy.header
    let execute_request : ExecuteRequest :=
      { parent_state_hash := state_root_hash,
        block_time,
        deploys := [DeployItem.ofDeploy deploy],
        protocol_version,
        proposer }
    match execute env execute_request with
    | (.error e, evs) => (.error (.engine e), evs)
    | (.ok result, evs) =>
      match commit_execution_results env state_root_hash deploy_hash result with
      | (.error e, cEvs) => (.error e, evs ++ cEvs)
      | (.ok (state_hash, execution_result), cEvs) =>
        match run_deploys env protocol_version block_time proposer rest state_hash with
        | (.error e, rEvs) => (.error e, evs ++ cEvs ++ rEvs)
        | (.ok (final_root, tail), rEvs) =>
          (.ok (final_root, (deploy_hash, deploy_header, execution_result) :: tail),
           evs ++ cEvs ++ rEvs)

/-- finalize_block embeds the tail of `execute_finalized_block` shared by the
era and non-era branches: flush the environment, fetch the checksum-registry
proof, derive the next-era validator weights, build the block and the
approvals hashes, and assemble the bundle. -/
def finalize_block (env : Env) (protocol_version : Nat)
    (parent_hash parent_seed : Nat) (finalized_block : FinalizedBlock)
    (deploy_ids : List DeployId)
    (execution_results : List (Nat × Nat × ExecutionResult))
    (state_root_hash : Digest)
    (maybe_step : Option StepEffectAndUpcomingEraValidators) :
    Except BlockExecutionError BlockAndExecutionResults × List EngineEvent :=
  match env.flush_environment with
  | .error e => (.error (.engine e), [.flushEnvironment])
  | .ok _ =>
    match env.get_checksum_registry_proof state_root_hash with
    | .error e =>
      (.error (.engine e), [.flushEnvironment, .getChecksumRegistryProof state_root_hash])
    | .ok proof_of_checksum_registry =>
      let next_era_validator_weights : Option ValidatorWeights :=
        maybe_step.bind fun s =>
          era_validators_get s.upcoming_era_validators (finalized_block.era_id + 1)
      match Block.new env parent_hash parent_seed state_root_hash finalized_block
          next_era_validator_weights protocol_version with
      | .error e =>
        (.error (.blockCreation e),
         [.flushEnvironment, .getChecksumRegistryProof state_root_hash])
      | .ok block =>
        let approvals_hashes := deploy_ids.map Prod.snd
        (.ok { block,
               approvals_hashes :=
                 { block_hash := block.hash,
                   approvals_hashes,
                   checksum_registry_proof := proof_of_checksum_registry },
               execution_results,
               maybe_step_effect_and_upcoming_era_validators := maybe_step },
         [.flushEnvironment, .getChecksumRegistryProof state_root_hash])

/-- execute_finalized_block: the top-level orchestrator.  Mirrors the source:
height gate first (before any collaborator call); approvals checksum computed
from the deploy ids before the scratch state is opened; deploys executed and
committed strictly in order; both checksums written to the registry by one
additional committed effect; era-step run when an era report is present; the
scratch written to durable storage; the environment flushed; the bundle built. -/
def execute_finalized_block (env : Env) (protocol_version : Nat)
    (execution_pre_state : ExecutionPreState) (finalized_block : FinalizedBlock)
    (deploys : List Deploy) :
    Except BlockExecutionError BlockAndExecutionResults × List EngineEvent :=
  if finalized_block.height ≠ execution_pre_state.next_block_height then
    (.error (.wrongBlockHeight finalized_block execution_pre_state), [])
  else
    let pre_state_root_hash := execution_pre_state.pre_state_root_hash
    let parent_hash := execution_pre_state.parent_hash
    let parent_seed := execution_pre_state.parent_seed
    let block_time := finalized_block.timestamp
    let deploy_ids := deploys.map Deploy.id
    match env.compute_approvals_checksum deploy_ids with
    | .error e => (.error (.blockCreation e), [.computeApprovalsChecksum deploy_ids])
    | .ok approvals_checksum =>
      match run_deploys env protocol_version block_time finalized_block.proposer
          deploys pre_state_root_hash with
      | (.error e, dEvs) =>
        (.error e, .computeApprovalsChecksum deploy_ids :: .openScratch :: dEvs)
      | (.ok (state_root_hash, execution_results), dEvs) =>
        let pub_results := execution_results.map fun t => t.2.2
        let evs0 := EngineEvent.computeApprovalsChecksum deploy_ids ::
          EngineEvent.openScratch :: dEvs
        match env.compute_execution_results_checksum pub_results with
        | .error e =>
          (.error (.blockCreation e),
           evs0 ++ [.computeExecutionResultsChecksum pub_results])
        | .ok execution_results_checksum =>
          let checksum_registry :=
            (ChecksumRegistry.new.insert APPROVALS_CHECKSUM_NAME
              approvals_checksum).insert EXECUTION_RESULTS_CHECKSUM_NAME
              execution_results_checksum
          let evs1 := evs0 ++ [EngineEvent.computeExecutionResultsChecksum pub_results]
          match env.clvalue_from_registry checksum_registry with
          | .error e => (.error (.blockCreation e), evs1)
          | .ok registry_blob =>
            let effects : Effects := [(Key.checksumRegistry, Transform.write registry_blob)]
            let evs2 := evs1 ++ [EngineEvent.applyEffect state_root_hash effects]
            match env.apply_effect state_root_hash effects with
            | .error e => (.error (.engine e), evs2)
            | .ok _ =>
              match finalized_block.era_report with
              | some era_report =>
                match commit_step env protocol_version state_root_hash era_report
                    block_time (finalized_block.era_id + 1) with
                | (.error e, sEvs) => (.error (.step e), evs2 ++ sEvs)
                | (.ok step_success, sEvs) =>
                  match env.write_scratch_to_db state_root_hash with
                  | .error e =>
                    (.error (.engine e),
                     evs2 ++ sEvs ++ [.writeScratchToDb state_root_hash])
                  | .ok new_root =>
                    match env.get_era_validators ⟨new_root, protocol_version⟩ with
                    | .error e =>
                      (.error (.engine e),
                       evs2 ++ sEvs ++ [.writeScratchToDb state_root_hash,
                         .getEraValidators ⟨new_root, protocol_version⟩])
                    | .ok upcoming_era_validators =>
                      match finalize_block env protocol_version parent_hash parent_seed
                          finalized_block deploy_ids execution_results new_root
                          (some { step_execution_journal := step_success.execution_journal,
                                  upcoming_era_validators }) with
                      | (res, fEvs) =>
                        (res, evs2 ++ sEvs ++ [.writeScratchToDb state_root_hash,
                          .getEraValidators ⟨new_root, protocol_version⟩] ++ fEvs)
              | none =>
                match env.write_scratch_to_db state_root_hash with
                | .error e =>
                  (.error (.engine e), evs2 ++ [.writeScratchToDb state_root_hash])
                | .ok new_root =>
                  match finalize_block env protocol_version parent_hash parent_seed
                      finalized_block deploy_ids execution_results new_root none with
                  | (res, fEvs) =>
                    (res, evs2 ++ [.writeScratchToDb state_root_hash] ++ fEvs)

/-! ### Concrete environment and inputs used to exercise the pipeline -/

/-- Concrete deterministic environment: every collaborator call succeeds with
a simple arithmetic answer, so the whole pipeline can be evaluated. -/
def env0 : Env where
  run_execute := fun req =>
    .ok [.success [(Key.hashKey 1, Transform.write req.parent_state_hash)] 5]
  apply_effect := fun root fx => .ok (root + fx.length + 1)
  commit_step_ee := fun req =>
    .ok ⟨req.pre_state_hash + 50, [(Key.hashKey 2, Transform.add 1)]⟩
  get_era_validators := fun _ => .ok [(5, [(PublicKey.key 9, 77)])]
  write_scratch_to_db := fun root => .ok (root + 7)
  flush_environment := .ok ()
  get_checksum_registry_proof := fun root => .ok (root * 2)
  compute_approvals_checksum := fun ids => .ok (ids.length + 11)
  compute_execution_results_checksum := fun rs => .ok (rs.length + 13)
  clvalue_from_registry := fun r => .ok (r.length + 17)
  block_hash := fun a b c _ _ pv => .ok (a + b + c + pv)

/-- Concrete pre-state with next_block_height 9. -/
def pre0 : ExecutionPreState := ⟨100, 5, 6, 9⟩

/-- Concrete non-era finalized block at height 9. -/
def fb0 : FinalizedBlock := ⟨9, 1000, .key 3, none, 4⟩

/-- Concrete era-ending finalized block at height 9. -/
def fb1 : FinalizedBlock :=
  ⟨9, 1000, .key 3, some ⟨[.key 1], [(.key 2, 40)], [.key 5]⟩, 4⟩

/-- Concrete finalized block whose height does not match pre0. -/
def fbBad : FinalizedBlock := ⟨8, 1000, .key 3, none, 4⟩

/-- Concrete single-deploy list. -/
def deploys0 : List Deploy := [⟨21, 22, 23⟩]

/-- Placeholder bundle used only to extract concrete outputs. -/
def dummyBundle : BlockAndExecutionResults :=
  { block := ⟨0, 0, 0, ⟨0, 0, .system, none, 0⟩, none, 0, 0⟩,
    approvals_hashes := ⟨0, [], 0⟩,
    execution_results := [],
    maybe_step_effect_and_upcoming_era_validators := none }

/-- Concrete successful run of the orchestrator on the non-era block. -/
def out0 : Except BlockExecutionError BlockAndExecutionResults × List EngineEvent :=
  execute_finalized_block env0 1 pre0 fb0 deploys0

/-- Bundle of the concrete non-era run. -/
def bundle0 : BlockAndExecutionResults := out0.1.toOption.getD dummyBundle

/-- Event trace of the concrete non-era run. -/
def log0 : List EngineEvent := out0.2

/-- Concrete successful run of the orchestrator on the era-ending block. -/
def out1 : Except BlockExecutionError BlockAndExecutionResults × List EngineEvent :=
  execute_finalized_block env0 1 pre0 fb1 deploys0

/-- Bundle of the concrete era run. -/
def bundle1 : BlockAndExecutionResults := out1.1.toOption.getD dummyBundle

/-- Event trace of the concrete era run. -/
def log1 : List EngineEvent := out1.2

/-! ### Inversion lemmas for the helpers -/

/-- exactly_one returns a value only on singleton lists. -/
theorem exactly_one_eq_some {α : Type} {l : List α} {x : α}
    (h : exactly_one l = some x) : l = [x] := by
  match l with
  | [] => simp [exactly_one] at h
  | [y] => simp [exactly_one] at h; simp [h]
  | y :: z :: rest => simp [exactly_one] at h

/-- exactly_one yields none on any list whose length is not one. -/
theorem exactly_one_eq_none {α : Type} {l : List α} (h : l.length ≠ 1) :
    exactly_one l = none := by
  match l with
  | [] => rfl
  | [y] => simp at h
  | y :: z :: rest => rfl

/-- Inversion of a successful commit_execution_results: the engine returned
exactly one result, its journal was committed at the given root, and the
public result is the converted engine result. -/
theorem commit_execution_results_ok {env : Env} {root : Digest} {dh : Nat}
    {rs : List EngineExecutionResult} {root' : Digest} {pub : ExecutionResult}
    {evs : List EngineEvent}
    (h : commit_execution_results env root dh rs = (.ok (root', pub), evs)) :
    ∃ ee, rs = [ee] ∧ env.apply_effect root ee.journal = .ok root' ∧
      pub = ExecutionResult.fromEngine ee ∧
      evs = [.applyEffect root ee.journal] := by
  unfold commit_execution_results at h
  split at h
  · simp at h
  · rename_i ee hee
    refine ⟨ee, exactly_one_eq_some hee, ?_⟩
    unfold commit_transforms at h
    match happly : env.apply_effect root ee.journal with
    | .error e => simp [happly] at h
    | .ok r => simp [happly] at h; simp [happly, h.1.1, h.1.2, h.2]

/-- Shape of a failed commit_execution_results: the error is either the
cardinality violation or an engine error. -/
theorem commit_execution_results_error {env : Env} {root : Digest} {dh : Nat}
    {rs : List EngineExecutionResult} {e : BlockExecutionError}
    {evs : List EngineEvent}
    (h : commit_execution_results env root dh rs = (.error e, evs)) :
    e = .moreThanOneExecutionResult ∨ ∃ n, e = .engine n := by
  unfold commit_execution_results at h
  split at h
  · simp at h; exact Or.inl h.1.symm
  · rename_i ee hee
    unfold commit_transforms at h
    match happly : env.apply_effect root ee.journal with
    | .error n => simp [happly] at h; exact Or.inr ⟨n, h.1.symm⟩
    | .ok r => simp [happly] at h

/-- Inversion of a successful Block.new: the field values are exactly the
arguments and the hash comes from the external hash computation. -/
theorem Block.new_ok {env : Env} {ph ps : Nat} {root : Digest}
    {fb : FinalizedBlock} {w : Option ValidatorWeights} {pv : Nat} {blk : Block}
    (h : Block.new env ph ps root fb w pv = .ok blk) :
    ∃ hsh, env.block_hash ph ps root fb w pv = .ok hsh ∧
      blk = ⟨ph, ps, root, fb, w, pv, hsh⟩ := by
  unfold Block.new at h
  revert h
  match hb : env.block_hash ph ps root fb w pv with
  | .error e => intro h; simp [Except.map] at h
  | .ok hsh => intro h; simp [Except.map] at h; exact ⟨hsh, rfl, h.symm⟩

/-! ### Spec-side sequential-execution relation and loop soundness -/

/-- Modelled from the spec: the sequential threading discipline for the
transaction phase.  The first execution request uses the given root; the
engine returns exactly one result per single-transaction request; each
result's journal is committed and the returned root becomes the input root of
the next transaction; exactly one `(transaction_id, header, result)` triple is
recorded per transaction, in the order given. -/
inductive SpecSequentialExecution (env : Env) (protocol_version block_time : Nat)
    (proposer : PublicKey) :
    Digest → List Deploy → List (Nat × Nat × ExecutionResult) →
    List EngineEvent → Digest → Prop
  | nil (root : Digest) :
      SpecSequentialExecution env protocol_version block_time proposer root [] [] [] root
  | cons (root next_root final_root : Digest) (d : Deploy) (rest : List Deploy)
      (ee : EngineExecutionResult) (tail : List (Nat × Nat × ExecutionResult))
      (evs : List EngineEvent)
      (hrun : env.run_execute
        ⟨root, block_time, [DeployItem.ofDeploy d], protocol_version, proposer⟩ =
        .ok [ee])
      (hcommit : env.apply_effect root ee.journal = .ok next_root)
      (hrest : SpecSequentialExecution env protocol_version block_time proposer
        next_root rest tail evs final_root) :
      SpecSequentialExecution env protocol_version block_time proposer root (d :: rest)
        ((d.hash, d.header, ExecutionResult.fromEngine ee) :: tail)
        (.runExecute ⟨root, block_time, [DeployItem.ofDeploy d], protocol_version, proposer⟩ ::
          .applyEffect root ee.journal :: evs)
        final_root

/-- Soundness of the deploy loop: a successful run satisfies the spec-side
sequential threading relation on exactly its inputs and outputs. -/
theorem run_deploys_sound {env : Env} {pv bt : Nat} {prop : PublicKey} :
    ∀ {ds : List Deploy} {root final_root : Digest}
      {res : List (Nat × Nat × ExecutionResult)} {evs : List EngineEvent},
      run_deploys env pv bt prop ds root = (.ok (final_root, res), evs) →
      SpecSequentialExecution env pv bt prop root ds res evs final_root := by
  intro ds
  induction ds with
  | nil =>
    intro root final_root res evs h
    unfold run_deploys at h
    simp at h
    obtain ⟨⟨h1, h2⟩, h3⟩ := h
    subst h1; subst h3; subst h2
    exact .nil _
  | cons d rest ih =>
    intro root final_root res evs h
    match hrun : env.run_execute ⟨root, bt, [DeployItem.ofDeploy d], pv, prop⟩ with
    | .error e => simp [run_deploys, execute, hrun] at h
    | .ok result =>
      simp only [run_deploys, execute, hrun] at h
      match hcom : commit_execution_results env root d.hash result with
      | (.error e, cEvs) => rw [hcom] at h; simp at h
      | (.ok (state_hash, execution_result), cEvs) =>
        rw [hcom] at h
        simp only at h
        match hrec : run_deploys env pv bt prop rest state_hash with
        | (.error e, rEvs) => rw [hrec] at h; simp at h
        | (.ok (froot, tail), rEvs) =>
          rw [hrec] at h
          simp at h
          obtain ⟨ee, hres, happly, hpub, hcEvs⟩ := commit_execution_results_ok hcom
          rw [hres] at hrun
          obtain ⟨⟨hfr, hres2⟩, hevs⟩ := h
          subst hfr; subst hres2; subst hevs; subst hpub; subst hcEvs
          simp only [List.cons_append, List.nil_append]
          exact .cons root state_hash _ d rest ee tail rEvs hrun happly (ih hrec)

/-- Every event emitted by the transaction phase is an engine execution or an
effect commit. -/
theorem specSequentialExecution_events {env : Env} {pv bt : Nat}
    {prop : PublicKey} {root final_root : Digest} {ds : List Deploy}
    {res : List (Nat × Nat × ExecutionResult)} {evs : List EngineEvent}
    (h : SpecSequentialExecution env pv bt prop root ds res evs final_root) :
    ∀ e ∈ evs, (∃ r, e = .runExecute r) ∨ ∃ a b, e = .applyEffect a b := by
  induction h with
  | nil => intro e he; simp at he
  | cons root next_root final_root d rest ee tail evs hrun hcommit hrest ih =>
    intro e he
    simp only [List.mem_cons] at he
    rcases he with rfl | rfl | he
    · exact Or.inl ⟨_, rfl⟩
    · exact Or.inr ⟨_, _, rfl⟩
    · exact ih e he

/-- The deploy loop never reports a height mismatch. -/
theorem run_deploys_no_wrong_height {env : Env} {pv bt : Nat} {prop : PublicKey} :
    ∀ {ds : List Deploy} {root : Digest} {fb' : FinalizedBlock}
      {pre' : ExecutionPreState},
      (run_deploys env pv bt prop ds root).1 ≠
        .error (.wrongBlockHeight fb' pre') := by
  intro ds
  induction ds with
  | nil =>
    intro root fb' pre' h
    unfold run_deploys at h
    simp at h
  | cons d rest ih =>
    intro root fb' pre' h
    match hrun : env.run_execute ⟨root, bt, [DeployItem.ofDeploy d], pv, prop⟩ with
    | .error e => simp [run_deploys, execute, hrun] at h
    | .ok result =>
      simp only [run_deploys, execute, hrun] at h
      match hcom : commit_execution_results env root d.hash result with
      | (.error e, cEvs) =>
        rw [hcom] at h
        simp at h
        rcases commit_execution_results_error hcom with he | ⟨n, he⟩ <;>
          simp [he] at h
      | (.ok (state_hash, execution_result), cEvs) =>
        rw [hcom] at h
        simp only at h
        match hrec : run_deploys env pv bt prop rest state_hash with
        | (.error e, rEvs) =>
          rw [hrec] at h
          simp at h
          subst h
          exact ih (by rw [hrec])
        | (.ok (froot, tail), rEvs) => rw [hrec] at h; simp at h

/-- Inversion of a successful finalize_block: the flush and the proof fetch
succeeded, the block was built from exactly the given fields, and the bundle
records the given results and step outcome. -/
theorem finalize_block_ok {env : Env} {pv ph ps : Nat} {fb : FinalizedBlock}
    {ids : List DeployId} {res : List (Nat × Nat × ExecutionResult)}
    {root : Digest} {mstep : Option StepEffectAndUpcomingEraValidators}
    {bundle : BlockAndExecutionResults} {fEvs : List EngineEvent}
    (h : finalize_block env pv ph ps fb ids res root mstep = (.ok bundle, fEvs)) :
    ∃ pr hsh,
      env.flush_environment = .ok () ∧
      env.get_checksum_registry_proof root = .ok pr ∧
      env.block_hash ph ps root fb
        (mstep.bind fun s =>
          era_validators_get s.upcoming_era_validators (fb.era_id + 1)) pv = .ok hsh ∧
      bundle =
        { block := ⟨ph, ps, root, fb,
            mstep.bind fun s =>
              era_validators_get s.upcoming_era_validators (fb.era_id + 1),
            pv, hsh⟩,
          approvals_hashes := ⟨hsh, ids.map Prod.snd, pr⟩,
          execution_results := res,
          maybe_step_effect_and_upcoming_era_validators := mstep } ∧
      fEvs = [.flushEnvironment, .getChecksumRegistryProof root] := by
  unfold finalize_block at h
  match hfl : env.flush_environment with
  | .error e => rw [hfl] at h; simp at h
  | .ok u =>
    rw [hfl] at h
    simp only at h
    match hpr : env.get_checksum_registry_proof root with
    | .error e => rw [hpr] at h; simp at h
    | .ok pr =>
      rw [hpr] at h
      simp only at h
      match hbn : Block.new env ph ps root fb
          (mstep.bind fun s =>
            era_validators_get s.upcoming_era_validators (fb.era_id + 1)) pv with
      | .error e => rw [hbn] at h; simp at h
      | .ok blk =>
        rw [hbn] at h
        simp at h
        obtain ⟨hsh, hbh, hblk⟩ := Block.new_ok hbn
        refine ⟨pr, hsh, rfl, rfl, hbh, ?_, h.2.symm⟩
        rw [← h.1, hblk]

/-- finalize_block never reports a height mismatch. -/
theorem finalize_block_no_wrong_height {env : Env} {pv ph ps : Nat}
    {fb : FinalizedBlock} {ids : List DeployId}
    {res : List (Nat × Nat × ExecutionResult)} {root : Digest}
    {mstep : Option StepEffectAndUpcomingEraValidators} {fb' : FinalizedBlock}
    {pre' : ExecutionPreState} :
    (finalize_block env pv ph ps fb ids res root mstep).1 ≠
      .error (.wrongBlockHeight fb' pre') := by
  intro h
  unfold finalize_block at h
  match hfl : env.flush_environment with
  | .error e => rw [hfl] at h; simp at h
  | .ok u =>
    rw [hfl] at h
    simp only at h
    match hpr : env.get_checksum_registry_proof root with
    | .error e => rw [hpr] at h; simp at h
    | .ok pr =>
      rw [hpr] at h
      simp only at h
      match hbn : Block.new env ph ps root fb
          (mstep.bind fun s =>
            era_validators_get s.upcoming_era_validators (fb.era_id + 1)) pv with
      | .error e => rw [hbn] at h; simp at h
      | .ok blk => rw [hbn] at h; simp at h

/-- commit_step unfolded: one engine submission of the built request. -/
theorem commit_step_def (env : Env) (pv : Nat) (r : Digest) (er : EraReport)
    (ts nid : Nat) :
    commit_step env pv r er ts nid =
      (env.commit_step_ee (build_step_request pv r er ts nid),
       [.commitStep (build_step_request pv r er ts nid)]) := rfl

/-- Full decomposition of a successful execute_finalized_block run: the height
gate passed, the approvals checksum was computed from the deploy ids, the
deploy loop succeeded at the pre-state root, the results checksum was computed
over the recorded results, the registry holding both checksums was written by
one committed effect, and the tail ran the era step exactly when an era report
is present, with the event trace laid out in program order. -/
theorem execute_finalized_block_ok {env : Env} {pv : Nat}
    {pre : ExecutionPreState} {fb : FinalizedBlock} {deploys : List Deploy}
    {bundle : BlockAndExecutionResults} {log : List EngineEvent}
    (h : execute_finalized_block env pv pre fb deploys = (.ok bundle, log)) :
    fb.height = pre.next_block_height ∧
    ∃ acs root1 results dEvs rcs blob tailEvs,
      env.compute_approvals_checksum (deploys.map Deploy.id) = .ok acs ∧
      run_deploys env pv fb.timestamp fb.proposer deploys pre.pre_state_root_hash =
        (.ok (root1, results), dEvs) ∧
      bundle.execution_results = results ∧
      env.compute_execution_results_checksum (results.map fun t => t.2.2) = .ok rcs ∧
      env.clvalue_from_registry
        ((ChecksumRegistry.new.insert APPROVALS_CHECKSUM_NAME acs).insert
          EXECUTION_RESULTS_CHECKSUM_NAME rcs) = .ok blob ∧
      (∃ r, env.apply_effect root1 [(Key.checksumRegistry, Transform.write blob)] = .ok r) ∧
      log = .computeApprovalsChecksum (deploys.map Deploy.id) :: .openScratch ::
        dEvs ++ [.computeExecutionResultsChecksum (results.map fun t => t.2.2),
          .applyEffect root1 [(Key.checksumRegistry, Transform.write blob)]] ++ tailEvs ∧
      (match fb.era_report with
       | none => ∃ root2,
           env.write_scratch_to_db root1 = .ok root2 ∧
           bundle.maybe_step_effect_and_upcoming_era_validators = none ∧
           bundle.block.next_era_validator_weights = none ∧
           bundle.block.state_root_hash = root2 ∧
           tailEvs = [.writeScratchToDb root1, .flushEnvironment,
             .getChecksumRegistryProof root2]
       | some era_report => ∃ ss root2 upcoming,
           env.commit_step_ee
             (build_step_request pv root1 era_report fb.timestamp (fb.era_id + 1)) =
             .ok ss ∧
           env.write_scratch_to_db root1 = .ok root2 ∧
           env.get_era_validators ⟨root2, pv⟩ = .ok upcoming ∧
           bundle.maybe_step_effect_and_upcoming_era_validators =
             some ⟨ss.execution_journal, upcoming⟩ ∧
           bundle.block.next_era_validator_weights =
             era_validators_get upcoming (fb.era_id + 1) ∧
           bundle.block.state_root_hash = root2 ∧
           tailEvs = [.commitStep
               (build_step_request pv root1 era_report fb.timestamp (fb.era_id + 1)),
             .writeScratchToDb root1, .getEraValidators ⟨root2, pv⟩,
             .flushEnvironment, .getChecksumRegistryProof root2]) := by
  unfold execute_finalized_block at h
  split at h
  · simp at h
  · rename_i hcond
    refine ⟨not_not.mp hcond, ?_⟩
    simp only [] at h
    match hacs : env.compute_approvals_checksum (deploys.map Deploy.id) with
    | .error e => rw [hacs] at h; simp at h
    | .ok acs =>
      rw [hacs] at h
      simp only at h
      match hrd : run_deploys env pv fb.timestamp fb.proposer deploys
          pre.pre_state_root_hash with
      | (.error e, dEvs) => rw [hrd] at h; simp at h
      | (.ok (root1, results), dEvs) =>
        rw [hrd] at h
        simp only at h
        match hrcs : env.compute_execution_results_checksum
            (results.map fun t => t.2.2) with
        | .error e => rw [hrcs] at h; simp at h
        | .ok rcs =>
          rw [hrcs] at h
          simp only at h
          match hblob : env.clvalue_from_registry
              ((ChecksumRegistry.new.insert APPROVALS_CHECKSUM_NAME acs).insert
                EXECUTION_RESULTS_CHECKSUM_NAME rcs) with
          | .error e => rw [hblob] at h; simp at h
          | .ok blob =>
            rw [hblob] at h
            simp only at h
            match happ : env.apply_effect root1
                [(Key.checksumRegistry, Transform.write blob)] with
            | .error e => rw [happ] at h; simp at h
            | .ok r0 =>
              rw [happ] at h
              simp only at h
              match hera : fb.era_report with
              | some era_report =>
                rw [hera] at h
                simp only [commit_step_def] at h
                match hcs : env.commit_step_ee
                    (build_step_request pv root1 era_report fb.timestamp
                      (fb.era_id + 1)) with
                | .error e => rw [hcs] at h; simp at h
                | .ok ss =>
                  rw [hcs] at h
                  simp only at h
                  match hwr : env.write_scratch_to_db root1 with
                  | .error e => rw [hwr] at h; simp at h
                  | .ok root2 =>
                    rw [hwr] at h
                    simp only at h
                    match hev : env.get_era_validators ⟨root2, pv⟩ with
                    | .error e => rw [hev] at h; simp at h
                    | .ok upcoming =>
                      rw [hev] at h
                      simp only at h
                      match hfin : finalize_block env pv pre.parent_hash
                          pre.parent_seed fb (deploys.map Deploy.id) results root2
                          (some { step_execution_journal := ss.execution_journal,
                                  upcoming_era_validators := upcoming }) with
                      | (res, fEvs) =>
                        rw [hfin] at h
                        simp at h
                        obtain ⟨hres, hlog⟩ := h
                        cases res with
                        | error e => simp at hres
                        | ok bundle' =>
                          have hres' : bundle' = bundle := by simpa using hres
                          subst hres'
                          obtain ⟨pr, hsh, _, hpr, hbh, hbundle, hfEvs⟩ :=
                            finalize_block_ok hfin
                          subst hfEvs
                          refine ⟨acs, root1, results, dEvs, rcs, blob,
                            [.commitStep (build_step_request pv root1 era_report
                                fb.timestamp (fb.era_id + 1)),
                              .writeScratchToDb root1, .getEraValidators ⟨root2, pv⟩,
                              .flushEnvironment, .getChecksumRegistryProof root2],
                            rfl, rfl,
                            by rw [hbundle], hrcs, hblob, ⟨r0, happ⟩, ?_, ?_⟩
                          · rw [← hlog]; simp
                          · simp only
                            exact ⟨ss, root2, upcoming, hcs, hwr, hev,
                              by rw [hbundle], by rw [hbundle]; simp,
                              by rw [hbundle], rfl⟩
              | none =>
                rw [hera] at h
                simp only at h
                match hwr : env.write_scratch_to_db root1 with
                | .error e => rw [hwr] at h; simp at h
                | .ok root2 =>
                  rw [hwr] at h
                  simp only at h
                  match hfin : finalize_block env pv pre.parent_hash
                      pre.parent_seed fb (deploys.map Deploy.id) results root2
                      none with
                  | (res, fEvs) =>
                    rw [hfin] at h
                    simp at h
                    obtain ⟨hres, hlog⟩ := h
                    cases res with
                    | error e => simp at hres
                    | ok bundle' =>
                      have hres' : bundle' = bundle := by simpa using hres
                      subst hres'
                      obtain ⟨pr, hsh, _, hpr, hbh, hbundle, hfEvs⟩ :=
                        finalize_block_ok hfin
                      subst hfEvs
                      refine ⟨acs, root1, results, dEvs, rcs, blob,
                        [.writeScratchToDb root1, .flushEnvironment,
                          .getChecksumRegistryProof root2],
                        rfl, rfl,
                        by rw [hbundle], hrcs, hblob, ⟨r0, happ⟩, ?_, ?_⟩
                      · rw [← hlog]; simp
                      · simp only
                        exact ⟨root2, hwr, by rw [hbundle], by rw [hbundle]; simp,
                          by rw [hbundle], rfl⟩

/-! ### Claim theorems -/

/-- C1: whenever the finalized block's height differs from the pre-state's
next block height, execute_finalized_block returns the height-mismatch error
carrying both inputs, with an empty collaborator trace (so before any engine
invocation and before the scratch overlay is opened); when the heights agree,
no height-mismatch error is ever returned. -/
theorem height_gate (env : Env) (pv : Nat) (pre : ExecutionPreState)
    (fb : FinalizedBlock) (deploys : List Deploy) :
    (fb.height ≠ pre.next_block_height →
      execute_finalized_block env pv pre fb deploys =
        (.error (.wrongBlockHeight fb pre), [])) ∧
    (fb.height = pre.next_block_height →
      ∀ fb' pre', (execute_finalized_block env pv pre fb deploys).1 ≠
        .error (.wrongBlockHeight fb' pre')) := by
  constructor
  · intro hne
    unfold execute_finalized_block
    rw [if_pos hne]
  · intro heq fb' pre' hcontra
    unfold execute_finalized_block at hcontra
    rw [if_neg (by simp [heq])] at hcontra
    simp only [] at hcontra
    match hacs : env.compute_approvals_checksum (deploys.map Deploy.id) with
    | .error e => rw [hacs] at hcontra; simp at hcontra
    | .ok acs =>
      rw [hacs] at hcontra
      simp only at hcontra
      match hrd : run_deploys env pv fb.timestamp fb.proposer deploys
          pre.pre_state_root_hash with
      | (.error e, dEvs) =>
        rw [hrd] at hcontra
        simp at hcontra
        subst hcontra
        exact run_deploys_no_wrong_height (by rw [hrd])
      | (.ok (root1, results), dEvs) =>
        rw [hrd] at hcontra
        simp only at hcontra
        match hrcs : env.compute_execution_results_checksum
            (results.map fun t => t.2.2) with
        | .error e => rw [hrcs] at hcontra; simp at hcontra
        | .ok rcs =>
          rw [hrcs] at hcontra
          simp only at hcontra
          match hblob : env.clvalue_from_registry
              ((ChecksumRegistry.new.insert APPROVALS_CHECKSUM_NAME acs).insert
                EXECUTION_RESULTS_CHECKSUM_NAME rcs) with
          | .error e => rw [hblob] at hcontra; simp at hcontra
          | .ok blob =>
            rw [hblob] at hcontra
            simp only at hcontra
            match happ : env.apply_effect root1
                [(Key.checksumRegistry, Transform.write blob)] with
            | .error e => rw [happ] at hcontra; simp at hcontra
            | .ok r0 =>
              rw [happ] at hcontra
              simp only at hcontra
              match hera : fb.era_report with
              | some era_report =>
                rw [hera] at hcontra
                simp only [commit_step_def] at hcontra
                match hcs : env.commit_step_ee
                    (build_step_request pv root1 era_report fb.timestamp
                      (fb.era_id + 1)) with
                | .error e => rw [hcs] at hcontra; simp at hcontra
                | .ok ss =>
                  rw [hcs] at hcontra
                  simp only at hcontra
                  match hwr : env.write_scratch_to_db root1 with
                  | .error e => rw [hwr] at hcontra; simp at hcontra
                  | .ok root2 =>
                    rw [hwr] at hcontra
                    simp only at hcontra
                    match hev : env.get_era_validators ⟨root2, pv⟩ with
                    | .error e => rw [hev] at hcontra; simp at hcontra
                    | .ok upcoming =>
                      rw [hev] at hcontra
                      simp only at hcontra
                      match hfin : finalize_block env pv pre.parent_hash
                          pre.parent_seed fb (deploys.map Deploy.id) results root2
                          (some { step_execution_journal := ss.execution_journal,
                                  upcoming_era_validators := upcoming }) with
                      | (res, fEvs) =>
                        rw [hfin] at hcontra
                        simp at hcontra
                        exact finalize_block_no_wrong_height
                          (by rw [hfin]; exact hcontra)
              | none =>
                rw [hera] at hcontra
                simp only at hcontra
                match hwr : env.write_scratch_to_db root1 with
                | .error e => rw [hwr] at hcontra; simp at hcontra
                | .ok root2 =>
                  rw [hwr] at hcontra
                  simp only at hcontra
                  match hfin : finalize_block env pv pre.parent_hash
                      pre.parent_seed fb (deploys.map Deploy.id) results root2
                      none with
                  | (res, fEvs) =>
                    rw [hfin] at hcontra
                    simp at hcontra
                    exact finalize_block_no_wrong_height
                      (by rw [hfin]; exact hcontra)

/-- C1 witness: at a concrete mismatched input the call returns exactly the
height-mismatch error with an empty trace. -/
theorem height_gate_witness :
    fbBad.height ≠ pre0.next_block_height ∧
    execute_finalized_block env0 1 pre0 fbBad deploys0 =
      (.error (.wrongBlockHeight fbBad pre0), []) :=
  ⟨by decide, (height_gate env0 1 pre0 fbBad deploys0).1 (by decide)⟩

/-- C2: on every successful run, the transaction phase of
execute_finalized_block refines the spec-side sequential threading relation:
transactions run in the order given, the first request uses the pre-state
root, each subsequent request uses the root returned by committing the
previous transaction's effects, and exactly one (id, header, result) triple
is recorded per transaction in that order. -/
theorem sequential_threading {env : Env} {pv : Nat} {pre : ExecutionPreState}
    {fb : FinalizedBlock} {deploys : List Deploy}
    {bundle : BlockAndExecutionResults} {log : List EngineEvent}
    (h : execute_finalized_block env pv pre fb deploys = (.ok bundle, log)) :
    ∃ final_root dEvs,
      run_deploys env pv fb.timestamp fb.proposer deploys pre.pre_state_root_hash =
        (.ok (final_root, bundle.execution_results), dEvs) ∧
      SpecSequentialExecution env pv fb.timestamp fb.proposer
        pre.pre_state_root_hash deploys bundle.execution_results dEvs final_root := by
  obtain ⟨-, acs, root1, results, dEvs, rcs, blob, tailEvs, hacs, hrd, hres, -⟩ :=
    execute_finalized_block_ok h
  subst hres
  exact ⟨root1, dEvs, hrd, run_deploys_sound hrd⟩

/-- C2 witness: the concrete non-era run satisfies the threading relation. -/
theorem sequential_threading_witness :
    execute_finalized_block env0 1 pre0 fb0 deploys0 = (.ok bundle0, log0) ∧
    ∃ final_root dEvs,
      run_deploys env0 1 fb0.timestamp fb0.proposer deploys0 pre0.pre_state_root_hash =
        (.ok (final_root, bundle0.execution_results), dEvs) ∧
      SpecSequentialExecution env0 1 fb0.timestamp fb0.proposer
        pre0.pre_state_root_hash deploys0 bundle0.execution_results dEvs final_root :=
  ⟨rfl, sequential_threading rfl⟩

/-- C4: for every era report and any other inputs, the set of validators in
the evict list of the step request built by commit_step is exactly the union
of the inactive validators and the equivocators (so independent of input
order and of a validator appearing in both groups), and the built request is
what commit_step submits to the engine. -/
theorem evict_set_union (env : Env) (pv : Nat) (root : Digest)
    (report : EraReport) (ts nid : Nat) :
    ((build_step_request pv root report ts nid).evict_items.map
        EvictItem.validator_id).toFinset =
      report.inactive_validators.toFinset ∪ report.equivocators.toFinset ∧
    (commit_step env pv root report ts nid).2 =
      [.commitStep (build_step_request pv root report ts nid)] := by
  constructor
  · have h1 : (build_step_request pv root report ts nid).evict_items =
        (report.inactive_validators ++ report.equivocators).map EvictItem.new := rfl
    have h2 : EvictItem.validator_id ∘ EvictItem.new = id := rfl
    rw [h1, List.map_map, h2, List.map_id, List.toFinset_append]
  · rfl

/-- C9: for every era report and any other inputs, the step request built and
submitted by commit_step has an empty slash list, carries the era report's
reward pairs unchanged, and carries the given root, protocol version, era id
and timestamp. -/
theorem step_request_rewards_no_slash (env : Env) (pv : Nat) (root : Digest)
    (report : EraReport) (ts nid : Nat) :
    (build_step_request pv root report ts nid).slash_items = [] ∧
    (build_step_request pv root report ts nid).reward_items =
      report.rewards.map (fun p => RewardItem.new p.1 p.2) ∧
    (build_step_request pv root report ts nid).pre_state_hash = root ∧
    (build_step_request pv root report ts nid).protocol_version = pv ∧
    (build_step_request pv root report ts nid).next_era_id = nid ∧
    (build_step_request pv root report ts nid).era_end_timestamp_millis = ts ∧
    (commit_step env pv root report ts nid).2 =
      [.commitStep (build_step_request pv root report ts nid)] := by
  refine ⟨rfl, rfl, rfl, rfl, rfl, rfl, rfl⟩

/-- C10: every execute_only call submits exactly one request, carrying the
given state root, block time, transaction and protocol version, with the
system public key as proposer. -/
theorem speculative_proposer_system (env : Env)
    (st : SpeculativeExecutionState) (d : DeployItem) :
    (execute_only env st d).2 =
      [.runExecute ⟨st.state_root_hash, st.block_time, [d],
        st.protocol_version, PublicKey.system⟩] := rfl

/-- C5: in the block path, a result count other than one from a
single-transaction engine request is the fatal cardinality error, both at the
commit helper and lifted through execute_finalized_block; with exactly one
result the helper never raises that error. -/
theorem cardinality_fatal_in_block_path (env : Env) (pv : Nat)
    (pre : ExecutionPreState) (fb : FinalizedBlock) (root : Digest) (dh : Nat)
    (rs : List EngineExecutionResult) :
    (rs.length ≠ 1 →
      commit_execution_results env root dh rs =
        (.error .moreThanOneExecutionResult, [])) ∧
    (∀ r, rs = [r] →
      (commit_execution_results env root dh rs).1 ≠
        .error .moreThanOneExecutionResult) ∧
    (∀ d rest acs, fb.height = pre.next_block_height →
      env.compute_approvals_checksum ((d :: rest).map Deploy.id) = .ok acs →
      env.run_execute ⟨pre.pre_state_root_hash, fb.timestamp,
        [DeployItem.ofDeploy d], pv, fb.proposer⟩ = .ok rs →
      rs.length ≠ 1 →
      (execute_finalized_block env pv pre fb (d :: rest)).1 =
        .error .moreThanOneExecutionResult) := by
  refine ⟨?_, ?_, ?_⟩
  · intro hlen
    unfold commit_execution_results
    rw [exactly_one_eq_none hlen]
  · intro r hr hcontra
    subst hr
    match happ : env.apply_effect root r.journal with
    | .error er =>
      unfold commit_execution_results commit_transforms at hcontra
      simp [exactly_one, happ] at hcontra
    | .ok nr =>
      unfold commit_execution_results commit_transforms at hcontra
      simp [exactly_one, happ] at hcontra
  · intro d rest acs heq hacs hrun hlen
    have hcom : commit_execution_results env pre.pre_state_root_hash d.hash rs =
        (.error .moreThanOneExecutionResult, []) := by
      unfold commit_execution_results
      rw [exactly_one_eq_none hlen]
    unfold execute_finalized_block
    rw [if_neg (by simp [heq])]
    simp only []
    rw [hacs]
    simp only [run_deploys, execute, hrun, hcom]

/-- Environment whose engine returns zero results for every request. -/
def env2 : Env :=
  { env0 with run_execute := fun _ => .ok [] }

/-- C5 witness: with a stubbed engine returning zero results, the commit
helper and the whole block path fail with the cardinality error. -/
theorem cardinality_fatal_in_block_path_witness :
    ([] : List EngineExecutionResult).length ≠ 1 ∧
    commit_execution_results env2 100 21 [] =
      (.error .moreThanOneExecutionResult, []) ∧
    (execute_finalized_block env2 1 pre0 fb0 deploys0).1 =
      .error .moreThanOneExecutionResult :=
  ⟨by decide,
   (cardinality_fatal_in_block_path env2 1 pre0 fb0 100 21 []).1 (by decide),
   (cardinality_fatal_in_block_path env2 1 pre0 fb0 100 21 []).2.2
     ⟨21, 22, 23⟩ [] 12 rfl rfl rfl (by decide)⟩

/-- C6: when the engine invocation inside execute_only succeeds, the call
returns the single result if the engine returned exactly one, and returns an
absent value (not an error) for any other result count. -/
theorem speculative_cardinality (env : Env) (st : SpeculativeExecutionState)
    (d : DeployItem) (rs : List EngineExecutionResult)
    (h : env.run_execute ⟨st.state_root_hash, st.block_time, [d],
      st.protocol_version, PublicKey.system⟩ = .ok rs) :
    (∀ r, rs = [r] →
      execute_only env st d =
        (.ok (some (ExecutionResult.fromEngine r)),
         [.runExecute ⟨st.state_root_hash, st.block_time, [d],
           st.protocol_version, PublicKey.system⟩])) ∧
    (rs.length ≠ 1 →
      execute_only env st d =
        (.ok none, [.runExecute ⟨st.state_root_hash, st.block_time, [d],
          st.protocol_version, PublicKey.system⟩])) := by
  constructor
  · intro r hr
    subst hr
    unfold execute_only execute
    simp [h, Except.map]
  · intro hlen
    unfold execute_only execute
    simp [h, hlen, Except.map]

/-- Concrete speculative state and deploy item. -/
def st0 : SpeculativeExecutionState := ⟨100, 777, 1⟩

/-- Concrete deploy item for the speculative path. -/
def d0 : DeployItem := ⟨21, 23, 22⟩

/-- C6 witness: with the concrete one-result engine, execute_only returns the
single converted result. -/
theorem speculative_cardinality_witness :
    env0.run_execute ⟨st0.state_root_hash, st0.block_time, [d0],
      st0.protocol_version, PublicKey.system⟩ =
      .ok [.success [(Key.hashKey 1, Transform.write 100)] 5] ∧
    ((∀ r, [EngineExecutionResult.success
          [(Key.hashKey 1, Transform.write 100)] 5] = [r] →
      execute_only env0 st0 d0 =
        (.ok (some (ExecutionResult.fromEngine r)),
         [.runExecute ⟨st0.state_root_hash, st0.block_time, [d0],
           st0.protocol_version, PublicKey.system⟩])) ∧
    (([EngineExecutionResult.success
        [(Key.hashKey 1, Transform.write 100)] 5]).length ≠ 1 →
      execute_only env0 st0 d0 =
        (.ok none, [.runExecute ⟨st0.state_root_hash, st0.block_time, [d0],
          st0.protocol_version, PublicKey.system⟩]))) :=
  ⟨rfl, speculative_cardinality env0 st0 d0
    [.success [(Key.hashKey 1, Transform.write 100)] 5] rfl⟩

/-- C7: an application-level failure result is committed exactly like a
success: both branches commit the same journal through the same effect-apply
call (identical trace), and when the commit succeeds the failure is returned
as an ok value recorded like a success, not as a pipeline error. -/
theorem failure_committed_like_success (env : Env) (root : Digest) (dh : Nat)
    (e : Nat) (j : Effects) (c c' : Nat) :
    (commit_execution_results env root dh [.failure e j c]).2 =
      (commit_execution_results env root dh [.success j c']).2 ∧
    (commit_execution_results env root dh [.failure e j c]).2 =
      [.applyEffect root j] ∧
    (∀ r, env.apply_effect root j = .ok r →
      commit_execution_results env root dh [.failure e j c] =
        (.ok (r, .failure j c e), [.applyEffect root j]) ∧
      commit_execution_results env root dh [.success j c'] =
        (.ok (r, .success j c'), [.applyEffect root j])) := by
  refine ⟨?_, ?_, ?_⟩
  · match happ : env.apply_effect root j with
    | .error er =>
      unfold commit_execution_results commit_transforms
      simp [exactly_one, EngineExecutionResult.journal, happ]
    | .ok r =>
      unfold commit_execution_results commit_transforms
      simp [exactly_one, EngineExecutionResult.journal, happ]
  · match happ : env.apply_effect root j with
    | .error er =>
      unfold commit_execution_results commit_transforms
      simp [exactly_one, EngineExecutionResult.journal, happ]
    | .ok r =>
      unfold commit_execution_results commit_transforms
      simp [exactly_one, EngineExecutionResult.journal, happ]
  · intro r happ
    unfold commit_execution_results commit_transforms
    simp [exactly_one, EngineExecutionResult.journal, happ,
      ExecutionResult.fromEngine]

/-- C7 witness: at a concrete journal, the failure branch commits and is
recorded like a success. -/
theorem failure_committed_like_success_witness :
    env0.apply_effect 100 [(Key.hashKey 3, Transform.add 4)] = .ok 102 ∧
    ((commit_execution_results env0 100 21
        [.failure 9 [(Key.hashKey 3, Transform.add 4)] 5]).2 =
      (commit_execution_results env0 100 21
        [.success [(Key.hashKey 3, Transform.add 4)] 6]).2 ∧
    (commit_execution_results env0 100 21
        [.failure 9 [(Key.hashKey 3, Transform.add 4)] 5]).2 =
      [.applyEffect 100 [(Key.hashKey 3, Transform.add 4)]] ∧
    (∀ r, env0.apply_effect 100 [(Key.hashKey 3, Transform.add 4)] = .ok r →
      commit_execution_results env0 100 21
          [.failure 9 [(Key.hashKey 3, Transform.add 4)] 5] =
        (.ok (r, .failure [(Key.hashKey 3, Transform.add 4)] 5 9),
         [.applyEffect 100 [(Key.hashKey 3, Transform.add 4)]]) ∧
      commit_execution_results env0 100 21
          [.success [(Key.hashKey 3, Transform.add 4)] 6] =
        (.ok (r, .success [(Key.hashKey 3, Transform.add 4)] 6),
         [.applyEffect 100 [(Key.hashKey 3, Transform.add 4)]]))) :=
  ⟨rfl, failure_committed_like_success env0 100 21 9
    [(Key.hashKey 3, Transform.add 4)] 5 6⟩

/-- C8: on every successful run, the next-era validator weights recorded in
the block are absent exactly when the finalized block carries no era report,
and when a step ran they are the successor-era entry of the step outcome's
upcoming validator table. -/
theorem next_era_weights_lookup {env : Env} {pv : Nat}
    {pre : ExecutionPreState} {fb : FinalizedBlock} {deploys : List Deploy}
    {bundle : BlockAndExecutionResults} {log : List EngineEvent}
    (h : execute_finalized_block env pv pre fb deploys = (.ok bundle, log)) :
    (fb.era_report = none →
      bundle.maybe_step_effect_and_upcoming_era_validators = none ∧
      bundle.block.next_era_validator_weights = none) ∧
    (∀ report, fb.era_report = some report →
      ∃ s, bundle.maybe_step_effect_and_upcoming_era_validators = some s ∧
        bundle.block.next_era_validator_weights =
          era_validators_get s.upcoming_era_validators (fb.era_id + 1)) := by
  obtain ⟨-, acs, root1, results, dEvs, rcs, blob, tailEvs, -, -, -, -, -, -, -,
    hera⟩ := execute_finalized_block_ok h
  constructor
  · intro hnone
    rw [hnone] at hera
    simp only at hera
    obtain ⟨root2, -, h1, h2, -, -⟩ := hera
    exact ⟨h1, h2⟩
  · intro report hsome
    rw [hsome] at hera
    simp only at hera
    obtain ⟨ss, root2, upcoming, -, -, -, h1, h2, -, -⟩ := hera
    exact ⟨⟨ss.execution_journal, upcoming⟩, h1, by rw [h2]⟩

/-- C8 witness: the concrete era run produces a step outcome whose
successor-era entry is the recorded weight table. -/
theorem next_era_weights_lookup_witness :
    execute_finalized_block env0 1 pre0 fb1 deploys0 = (.ok bundle1, log1) ∧
    ((fb1.era_report = none →
      bundle1.maybe_step_effect_and_upcoming_era_validators = none ∧
      bundle1.block.next_era_validator_weights = none) ∧
    (∀ report, fb1.era_report = some report →
      ∃ s, bundle1.maybe_step_effect_and_upcoming_era_validators = some s ∧
        bundle1.block.next_era_validator_weights =
          era_validators_get s.upcoming_era_validators (fb1.era_id + 1))) :=
  ⟨rfl, @next_era_weights_lookup env0 1 pre0 fb1 deploys0 bundle1 log1 rfl⟩

/-- C3 as stated by the spec: in every successful block execution both
checksums are computed only after all transactions have been committed; in
particular every engine-execution event precedes, in the trace, every
approvals-checksum computation event. -/
def ChecksumsComputedAfterCommits : Prop :=
  ∀ (env : Env) (pv : Nat) (pre : ExecutionPreState) (fb : FinalizedBlock)
    (deploys : List Deploy) (bundle : BlockAndExecutionResults)
    (log : List EngineEvent) (i j : Nat) (ids : List DeployId)
    (req : ExecuteRequest),
    execute_finalized_block env pv pre fb deploys = (.ok bundle, log) →
    log.get? i = some (.computeApprovalsChecksum ids) →
    log.get? j = some (.runExecute req) →
    j < i

/-- C3 counterexample: in the concrete one-deploy run the approvals checksum
is computed at trace position 0, before the transaction is executed at
position 2, refuting the claim that both checksums are computed only after
all transactions have been committed. -/
theorem checksum_timing_counterexample : ¬ ChecksumsComputedAfterCommits := by
  intro h
  have h2 := h env0 1 pre0 fb0 deploys0 bundle0 log0 0 2
    (deploys0.map Deploy.id)
    ⟨100, 1000, [DeployItem.ofDeploy ⟨21, 22, 23⟩], 1, .key 3⟩
    rfl rfl rfl
  exact absurd h2 (by decide)

/-- C3 amended: the approvals checksum is computed from the ordered deploy
ids before execution begins (it heads the trace); the execution-results
checksum is computed over the ordered public results after all transaction
commits; both are written into the checksum registry at the reserved key by
one additional committed effect, placed after every transaction event and
before any era-step submission. -/
theorem checksum_write_once_before_step {env : Env} {pv : Nat}
    {pre : ExecutionPreState} {fb : FinalizedBlock} {deploys : List Deploy}
    {bundle : BlockAndExecutionResults} {log : List EngineEvent}
    (h : execute_finalized_block env pv pre fb deploys = (.ok bundle, log)) :
    ∃ acs rcs blob root1 dEvs tailEvs,
      env.compute_approvals_checksum (deploys.map Deploy.id) = .ok acs ∧
      env.compute_execution_results_checksum
        (bundle.execution_results.map fun t => t.2.2) = .ok rcs ∧
      env.clvalue_from_registry
        ((ChecksumRegistry.new.insert APPROVALS_CHECKSUM_NAME acs).insert
          EXECUTION_RESULTS_CHECKSUM_NAME rcs) = .ok blob ∧
      log = .computeApprovalsChecksum (deploys.map Deploy.id) :: .openScratch ::
        dEvs ++ [.computeExecutionResultsChecksum
            (bundle.execution_results.map fun t => t.2.2),
          .applyEffect root1 [(Key.checksumRegistry, Transform.write blob)]] ++
        tailEvs ∧
      (∀ e ∈ dEvs, (∃ r, e = .runExecute r) ∨ ∃ a b, e = .applyEffect a b) ∧
      (∀ req, EngineEvent.commitStep req ∈ log →
        EngineEvent.commitStep req ∈ tailEvs) := by
  obtain ⟨-, acs, root1, results, dEvs, rcs, blob, tailEvs, hacs, hrd, hres,
    hrcs, hblob, -, hlog, -⟩ := execute_finalized_block_ok h
  subst hres
  refine ⟨acs, rcs, blob, root1, dEvs, tailEvs, hacs, hrcs, hblob, hlog,
    specSequentialExecution_events (run_deploys_sound hrd), ?_⟩
  intro req hmem
  rw [hlog] at hmem
  simp at hmem
  rcases hmem with h1 | h1
  · have h2 := specSequentialExecution_events (run_deploys_sound hrd) _ h1
    rcases h2 with ⟨r, hr⟩ | ⟨a, b, hab⟩
    · simp at hr
    · simp at hab
  · exact h1

/-- C3 witness for the amended statement: the concrete era-ending run
exhibits the full trace decomposition. -/
theorem checksum_write_once_before_step_witness :
    execute_finalized_block env0 1 pre0 fb1 deploys0 = (.ok bundle1, log1) ∧
    ∃ acs rcs blob root1 dEvs tailEvs,
      env0.compute_approvals_checksum (deploys0.map Deploy.id) = .ok acs ∧
      env0.compute_execution_results_checksum
        (bundle1.execution_results.map fun t => t.2.2) = .ok rcs ∧
      env0.clvalue_from_registry
        ((ChecksumRegistry.new.insert APPROVALS_CHECKSUM_NAME acs).insert
          EXECUTION_RESULTS_CHECKSUM_NAME rcs) = .ok blob ∧
      log1 = .computeApprovalsChecksum (deploys0.map Deploy.id) :: .openScratch ::
        dEvs ++ [.computeExecutionResultsChecksum
            (bundle1.execution_results.map fun t => t.2.2),
          .applyEffect root1 [(Key.checksumRegistry, Transform.write blob)]] ++
        tailEvs ∧
      (∀ e ∈ dEvs, (∃ r, e = .runExecute r) ∨ ∃ a b, e = .applyEffect a b) ∧
      (∀ req, EngineEvent.commitStep req ∈ log1 →
        EngineEvent.commitStep req ∈ tailEvs) :=
  ⟨rfl, @checksum_write_once_before_step env0 1 pre0 fb1 deploys0 bundle1 log1 rfl⟩

end CasperOperations
